import Mathlib

/-!
Verification of the Component Detachment Tracker plugin core.

The repository contains two analysis pipelines over a Figma-style document
tree, each present twice (compiled JavaScript and TypeScript source):

- pipeline 1 (instance usage): src/unnamed/part_000 (JS) and the second half
  of src/dist/code.js (TS).  Groups component instances by definition key.
- pipeline 2 (detachment / broken bindings): the first half of
  src/dist/code.js (JS) and src/unnamed/part_001 (TS).

This file embeds the document model, both pipelines, the navigator and the
request dispatcher, and proves the frozen claims about them.
-/

namespace Tracker

/-- JavaScript string disjunction `a || b` on strings: the empty string is
the only falsy string. -/
def strOr (a b : String) : String := if a = "" then b else a

/-- JavaScript `a || undefined` on a string, as used for `main.key || undefined`. -/
def optOfStr (a : String) : Option String := if a = "" then none else some a

/-- JavaScript `a || b` where `a` is a possibly-undefined string
(`group.componentKey || group.componentId`). -/
def optOrStr (a : Option String) (b : String) : String :=
  match a with
  | some s => strOr s b
  | none => b

/-- A component definition (a main component): stable id, key and display
name.  An empty key or name plays the role of a falsy string in the code. -/
structure ComponentDef where
  id : String
  key : String
  name : String
deriving DecidableEq, Repr

/-- The `mainComponent` field of a node.  `present` is a live reference,
`nullRef` is the explicit null of a detached instance, `unset` models a
property that is undefined (for example on a non-instance node). -/
inductive MainRef where
  | present (c : ComponentDef)
  | nullRef
  | unset
deriving DecidableEq, Repr

/-- One property binding value: `id` is `some s` when `binding.id` is the
string `s` and `none` when it is absent or not a string. -/
structure Binding where
  id : Option String
deriving DecidableEq, Repr

/-- A document node.  `boundVariables` is `none` when the node has no
`boundVariables` object; otherwise it lists the bound property names in
enumeration order, each mapped to `none` (a null binding) or a binding. -/
inductive Node where
  | mk (id name type : String) (mainComponent : MainRef)
       (boundVariables : Option (List (String × Option Binding)))
       (children : List Node)

def Node.id : Node → String
  | .mk i _ _ _ _ _ => i

def Node.name : Node → String
  | .mk _ n _ _ _ _ => n

def Node.type : Node → String
  | .mk _ _ t _ _ _ => t

def Node.mainComponent : Node → MainRef
  | .mk _ _ _ m _ _ => m

def Node.boundVariables : Node → Option (List (String × Option Binding))
  | .mk _ _ _ _ b _ => b

def Node.children : Node → List Node
  | .mk _ _ _ _ _ c => c

/-- A page: id, display name and its top-level children. -/
structure Page where
  id : String
  name : String
  children : List Node

/-- A document: the pages of `figma.root.children`. -/
structure Doc where
  pages : List Page

/-- The host variable registry: `none` models an absent `figma.variables`
API, `some ids` the set of live variable ids.  (The field is called `vars`
because `variables` is reserved in Lean.) -/
structure Env where
  vars : Option (List String)

/-- JavaScript truthiness of
`figma.variables && figma.variables.getVariableById(variableId)`. -/
def lookupVariable (env : Env) (vid : String) : Bool :=
  match env.vars with
  | none => false
  | some ids => ids.contains vid

mutual

/-- All strict descendants of a node, in depth-first discovery order. -/
def Node.descendants : Node → List Node
  | .mk _ _ _ _ _ cs => descList cs

/-- All members of a forest together with their strict descendants, in
depth-first discovery order. -/
def descList : List Node → List Node
  | [] => []
  | n :: ns => n :: Node.descendants n ++ descList ns

end

/-- The host traversal `page.findAll(() => true)`: every descendant node of
the page, each visited once, in discovery order. -/
def Page.findAll (p : Page) : List Node := descList p.children

namespace P1

/-- Pipeline 1 `InstanceUsage` record (src/unnamed/part_000). -/
structure InstanceUsage where
  id : String
  name : String
  componentId : String
  componentKey : Option String
  componentName : String
deriving DecidableEq, Repr

/-- Pipeline 1 `ComponentGroup` record. -/
structure ComponentGroup where
  componentId : String
  componentKey : Option String
  componentName : String
  instances : List InstanceUsage
deriving DecidableEq, Repr

/-- Pipeline 1 `PageData` record. -/
structure PageData where
  pageId : String
  pageName : String
  instanceCount : Nat
  componentGroups : List ComponentGroup
deriving DecidableEq, Repr

/-- Pipeline 1 `SummaryData` record. -/
structure SummaryData where
  totalInstances : Nat
  totalUniqueComponents : Nat
  pageBreakdown : List PageData
deriving DecidableEq, Repr

/-- The group created on first encounter of a definition
(src/unnamed/part_000 lines 14 to 19). -/
def freshGroup (main : ComponentDef) : ComponentGroup :=
  { componentId := main.id
    componentKey := optOfStr main.key
    componentName := strOr main.name "Unnamed Component"
    instances := [] }

/-- The member record pushed for one qualifying instance
(src/unnamed/part_000 lines 22 to 28). -/
def instanceRecord (inst : Node) (main : ComponentDef) : InstanceUsage :=
  { id := inst.id
    name := strOr inst.name "Instance"
    componentId := main.id
    componentKey := optOfStr main.key
    componentName := strOr main.name "Unnamed Component" }

/-- The `groups` map of `getInstancesForPage` as an insertion-ordered
association list.  `pushToGroup` is the get-or-create-then-push step of the
loop body: a new key is appended at the end (JavaScript `Map.set` on a new
key), an existing key keeps its position and gains one member. -/
def pushToGroup : List (String × ComponentGroup) → String → ComponentGroup →
    InstanceUsage → List (String × ComponentGroup)
  | [], k, fresh, u => [(k, { fresh with instances := fresh.instances ++ [u] })]
  | (k2, g) :: rest, k, fresh, u =>
    if k2 = k then (k2, { g with instances := g.instances ++ [u] }) :: rest
    else (k2, g) :: pushToGroup rest k fresh u

/-- The loop of `getInstancesForPage` over the qualifying instances
(src/unnamed/part_000 lines 6 to 29): skip an instance whose
`mainComponent` is falsy, otherwise push it under `main.key || componentId`. -/
def buildGroups : List Node → List (String × ComponentGroup) →
    List (String × ComponentGroup)
  | [], groups => groups
  | inst :: rest, groups =>
    match inst.mainComponent with
    | .present main =>
      buildGroups rest
        (pushToGroup groups (strOr main.key main.id) (freshGroup main) (instanceRecord inst main))
    | _ => buildGroups rest groups

/-- Pipeline 1 `getInstancesForPage` (src/unnamed/part_000 lines 3 to 35).
`lc` models the locale comparator `String.prototype.localeCompare` supplied
by the host: `page.findAll` with the INSTANCE predicate is the full
traversal filtered, the map values are sorted by component name and every
group has its members sorted by their own name. -/
def getInstancesForPage (lc : String → String → Int) (page : Page) :
    List ComponentGroup :=
  let instances := page.findAll.filter (fun n => n.type == "INSTANCE")
  let groups := buildGroups instances []
  let sortedGroups :=
    List.insertionSort (fun a b => lc a.componentName b.componentName ≤ 0)
      (groups.map Prod.snd)
  sortedGroups.map
    (fun g => { g with
      instances := List.insertionSort (fun a b => lc a.name b.name ≤ 0) g.instances })

/-- The page loop of pipeline 1 `scanFile` (src/unnamed/part_000 lines
41 to 57), with the mutable accumulators made explicit: the page breakdown
list, the running `totalInstances` and the `uniqueComponentKeys` set. -/
def scanPages (lc : String → String → Int) :
    List Page → List PageData → Nat → Finset String →
    List PageData × Nat × Finset String
  | [], pageBreakdown, totalInstances, uniqueComponentKeys =>
    (pageBreakdown, totalInstances, uniqueComponentKeys)
  | page :: rest, pageBreakdown, totalInstances, uniqueComponentKeys =>
    let componentGroups := getInstancesForPage lc page
    if componentGroups.isEmpty then
      scanPages lc rest pageBreakdown totalInstances uniqueComponentKeys
    else
      let instanceCount := componentGroups.foldl (fun acc g => acc + g.instances.length) 0
      scanPages lc rest
        (pageBreakdown ++ [{ pageId := page.id, pageName := page.name,
                             instanceCount := instanceCount,
                             componentGroups := componentGroups }])
        (totalInstances + instanceCount)
        (componentGroups.foldl
          (fun s g => insert (optOrStr g.componentKey g.componentId) s)
          uniqueComponentKeys)

/-- Pipeline 1 `scanFile` (src/unnamed/part_000 lines 36 to 63). -/
def scanFile (lc : String → String → Int) (doc : Doc) : SummaryData :=
  let out := scanPages lc doc.pages [] 0 ∅
  { totalInstances := out.2.1
    totalUniqueComponents := out.2.2.card
    pageBreakdown := out.1 }

end P1

namespace P2

/-- Pipeline 2 `DetachedItem` record (src/dist/code.js, src/unnamed/part_001).
The `type` field carries the literal tag, `"component"` or `"variable"`. -/
structure DetachedItem where
  id : String
  name : String
  type : String
  pageId : String
  pageName : String
  metadata : Option (List (String × String))
deriving DecidableEq, Repr

/-- Pipeline 2 `PageData` record. -/
structure PageData where
  pageId : String
  pageName : String
  items : List DetachedItem
deriving DecidableEq, Repr

/-- Pipeline 2 `SummaryData` record. -/
structure SummaryData where
  totalDetachedComponents : Nat
  totalDetachedVariables : Nat
  pageBreakdown : List PageData
deriving DecidableEq, Repr

/-- Pipeline 2 `isInstanceNode` (src/dist/code.js lines 3 to 5). -/
def isInstanceNode (node : Node) : Bool := node.type == "INSTANCE"

/-- Pipeline 2 `isDetachedComponent` (src/dist/code.js lines 6 to 8):
`node.mainComponent === null` holds only for the explicit null reference,
not for an unset property. -/
def isDetachedComponent (node : Node) : Bool :=
  isInstanceNode node && node.mainComponent == MainRef.nullRef

/-- The loop of `extractDetachedVariables` over the bound property names
(src/dist/code.js lines 13 to 33), with the `items` array made an explicit
accumulator.  A null binding is skipped; `variableId` is null when
`binding.id` is not a string, and the falsy check `!variableId` also skips
the empty string; otherwise a variable item is pushed exactly when the host
lookup does not resolve the id. -/
def varLoop (env : Env) (node : Node) (page : Page) :
    List (String × Option Binding) → List DetachedItem → List DetachedItem
  | [], items => items
  | (propertyName, binding) :: rest, items =>
    match binding with
    | none => varLoop env node page rest items
    | some b =>
      match b.id with
      | none => varLoop env node page rest items
      | some variableId =>
        if variableId = "" then varLoop env node page rest items
        else if lookupVariable env variableId then varLoop env node page rest items
        else varLoop env node page rest (items ++
          [{ id := node.id
             name := strOr node.name node.type ++ " · " ++ propertyName
             type := "variable"
             pageId := page.id
             pageName := page.name
             metadata := some [("property", propertyName)] }])

/-- Pipeline 2 `extractDetachedVariables` (src/dist/code.js lines 9 to 36). -/
def extractDetachedVariables (env : Env) (node : Node) (page : Page) :
    List DetachedItem :=
  match node.boundVariables with
  | none => []
  | some boundVars => varLoop env node page boundVars []

/-- The component item pushed for a detached instance
(src/dist/code.js lines 42 to 48). -/
def componentItem (node : Node) (page : Page) : DetachedItem :=
  { id := node.id
    name := strOr node.name "Unnamed Instance"
    type := "component"
    pageId := page.id
    pageName := page.name
    metadata := none }

/-- The node loop of `getDetachedItemsForPage` (src/dist/code.js lines
40 to 54) with the `items` array as an explicit accumulator. -/
def detachedLoop (env : Env) (page : Page) :
    List Node → List DetachedItem → List DetachedItem
  | [], items => items
  | node :: rest, items =>
    let items1 := if isDetachedComponent node then items ++ [componentItem node page] else items
    let variableIssues := extractDetachedVariables env node page
    let items2 := if variableIssues.length > 0 then items1 ++ variableIssues else items1
    detachedLoop env page rest items2

/-- Pipeline 2 `getDetachedItemsForPage` (src/dist/code.js lines 37 to 56). -/
def getDetachedItemsForPage (env : Env) (page : Page) : List DetachedItem :=
  detachedLoop env page page.findAll []

/-- The page loop of pipeline 2 `scanFile` (src/dist/code.js lines 62 to 73)
with explicit accumulators: breakdown, `totalDetachedComponents` and
`totalDetachedVariables`. -/
def scanPages (env : Env) :
    List Page → List PageData → Nat → Nat → List PageData × Nat × Nat
  | [], pageBreakdown, tdc, tdv => (pageBreakdown, tdc, tdv)
  | page :: rest, pageBreakdown, tdc, tdv =>
    let pageItems := getDetachedItemsForPage env page
    if pageItems.length > 0 then
      scanPages env rest
        (pageBreakdown ++ [{ pageId := page.id, pageName := page.name, items := pageItems }])
        (tdc + (pageItems.filter (fun it => it.type == "component")).length)
        (tdv + (pageItems.filter (fun it => it.type == "variable")).length)
    else
      scanPages env rest pageBreakdown tdc tdv

/-- Pipeline 2 `scanFile` (src/dist/code.js lines 57 to 79). -/
def scanFile (env : Env) (doc : Doc) : SummaryData :=
  let out := scanPages env doc.pages [] 0 0
  { totalDetachedComponents := out.2.1
    totalDetachedVariables := out.2.2
    pageBreakdown := out.1 }

end P2

/-- Outbound messages of both plugin files (`figma.ui.postMessage`). -/
inductive OutMsg where
  | ready
  | results1 (data : P1.SummaryData)
  | results2 (data : P2.SummaryData)
  | error (message : String)
deriving DecidableEq

/-- A value thrown during a scan: either a JavaScript `Error` with its
message, or any other thrown value. -/
inductive Thrown where
  | err (message : String)
  | other
deriving DecidableEq

/-- The message text extracted at the catch boundary
(`error instanceof Error ? error.message : ...`). -/
def thrownMessage : Thrown → String
  | .err m => m
  | .other => "Unexpected error during scan"

/-- Observable side effects of the dispatcher and navigator, in order of
occurrence. -/
inductive Effect where
  | postMessage (m : OutMsg)
  | notify (message : String) (timeoutMs : Nat)
  | setCurrentPage (pageId : String)
  | scrollAndZoomIntoView (nodeIds : List String)
deriving DecidableEq

/-- Whether an effect posts an `error` message to the panel. -/
def Effect.isError : Effect → Bool
  | .postMessage (OutMsg.error _) => true
  | _ => false

/-- Whether an effect is a transient user notice (`figma.notify`). -/
def Effect.isNotify : Effect → Bool
  | .notify _ _ => true
  | _ => false

/-- Whether an effect activates a page (`figma.currentPage = page`). -/
def Effect.isSetCurrentPage : Effect → Bool
  | .setCurrentPage _ => true
  | _ => false

/-- Whether an effect changes the viewport
(`figma.viewport.scrollAndZoomIntoView`). -/
def Effect.isViewportChange : Effect → Bool
  | .scrollAndZoomIntoView _ => true
  | _ => false

/-- Pipeline 1 `handleScanRequest` (src/unnamed/part_000 lines 70 to 85).
The `try` body is modelled by its outcome: `.ok` carries the summary that
`scanFile` returned, `.error` the thrown value caught at the boundary.
On an empty breakdown `notifyEmptyState` posts the explicit zero-valued
summary (line 68). -/
def P1.handleScanRequest (r : Except Thrown P1.SummaryData) : List Effect :=
  match r with
  | .ok summary =>
    if summary.pageBreakdown.length = 0 then
      [Effect.postMessage (OutMsg.results1
        { totalInstances := 0, totalUniqueComponents := 0, pageBreakdown := [] })]
    else
      [Effect.postMessage (OutMsg.results1 summary)]
  | .error e =>
    [Effect.notify (thrownMessage e) 2000,
     Effect.postMessage (OutMsg.error (thrownMessage e))]

/-- Pipeline 2 `handleScanRequest` (src/dist/code.js lines 86 to 101), with
`notifyEmptyState` of line 84 inlined. -/
def P2.handleScanRequest (r : Except Thrown P2.SummaryData) : List Effect :=
  match r with
  | .ok summary =>
    if summary.pageBreakdown.length = 0 then
      [Effect.postMessage (OutMsg.results2
        { totalDetachedComponents := 0, totalDetachedVariables := 0, pageBreakdown := [] })]
    else
      [Effect.postMessage (OutMsg.results2 summary)]
  | .error e =>
    [Effect.notify (thrownMessage e) 2000,
     Effect.postMessage (OutMsg.error (thrownMessage e))]

/-- An ancestor on the parent chain of a live node: id and type tag. -/
structure Ancestor where
  id : String
  type : String
deriving DecidableEq, Repr

/-- A live node as seen by `figma.getNodeById`: its id and its parent
chain, nearest parent first, ending at the chain root. -/
structure LiveNode where
  id : String
  chain : List Ancestor
deriving DecidableEq, Repr

/-- The host lookup `figma.getNodeById` over a table of live nodes. -/
def getNodeById (host : List LiveNode) (nodeId : String) : Option LiveNode :=
  host.find? (fun n => n.id == nodeId)

/-- `resolvePage` (src/dist/code.js lines 102 to 111): walk the parent
chain outward and return the first ancestor whose type is PAGE. -/
def resolvePage : List Ancestor → Option Ancestor
  | [] => none
  | a :: rest => if a.type = "PAGE" then some a else resolvePage rest

/-- `focusNode` (src/dist/code.js lines 112 to 124), as the list of host
effects it performs. -/
def focusNode (host : List LiveNode) (nodeId : String) : List Effect :=
  match getNodeById host nodeId with
  | none =>
    [Effect.notify "Target node not found. It may have been deleted." 2000,
     Effect.postMessage (OutMsg.error "Node not found or removed.")]
  | some node =>
    (match resolvePage node.chain with
     | some page => [Effect.setCurrentPage page.id]
     | none => []) ++ [Effect.scrollAndZoomIntoView [node.id]]

/-- An inbound panel message after the shape checks of `figma.ui.onmessage`
(src/unnamed/part_000 lines 109 to 125): a `scan` request, a `navigate`
request whose `nodeId` is `some s` exactly when the field is a string, or
any other object shape. -/
inductive PluginRequest where
  | scan
  | navigate (nodeId : Option String)
  | unknown
deriving DecidableEq

/-- The pipeline 1 dispatcher body for one inbound message.  `scanResult`
is the outcome of the `scanFile` call performed inside the scan handler,
`host` the live-node table consulted by navigation. -/
def onmessage (scanResult : Except Thrown P1.SummaryData) (host : List LiveNode) :
    PluginRequest → List Effect
  | .scan => P1.handleScanRequest scanResult
  | .navigate (some nodeId) => focusNode host nodeId
  | .navigate none => []
  | .unknown => []

/-- The dispatcher run over a whole inbound message sequence: one dispatch
cycle per message, effects concatenated in order. -/
def processAll (scanResult : Except Thrown P1.SummaryData) (host : List LiveNode) :
    List PluginRequest → List Effect
  | [] => []
  | m :: rest => onmessage scanResult host m ++ processAll scanResult host rest

namespace P2

/-- The variable item emitted for one bound property name. -/
def varItemOf (node : Node) (page : Page) (propertyName : String) : DetachedItem :=
  { id := node.id
    name := strOr node.name node.type ++ " · " ++ propertyName
    type := "variable"
    pageId := page.id
    pageName := page.name
    metadata := some [("property", propertyName)] }

/-- The per-property step of `extractDetachedVariables`: `some` exactly when
the binding is non-null, its id is a non-empty string, and the host lookup
does not resolve it. -/
def emitVar (env : Env) (node : Node) (page : Page)
    (entry : String × Option Binding) : Option DetachedItem :=
  match entry.2 with
  | none => none
  | some b =>
    match b.id with
    | none => none
    | some variableId =>
      if variableId = "" then none
      else if lookupVariable env variableId then none
      else some (varItemOf node page entry.1)

theorem varLoop_eq (env : Env) (node : Node) (page : Page) :
    ∀ (l : List (String × Option Binding)) (items : List DetachedItem),
    varLoop env node page l items = items ++ l.filterMap (emitVar env node page)
  | [], items => by simp [varLoop]
  | (propertyName, binding) :: rest, items => by
    cases binding with
    | none =>
      simp [varLoop, emitVar, List.filterMap_cons, varLoop_eq env node page rest]
    | some b =>
      cases hid : b.id with
      | none =>
        simp [varLoop, emitVar, hid, List.filterMap_cons, varLoop_eq env node page rest]
      | some vid =>
        by_cases hv : vid = ""
        · simp [varLoop, emitVar, hid, hv, List.filterMap_cons,
            varLoop_eq env node page rest]
        · by_cases hl : lookupVariable env vid
          · simp [varLoop, emitVar, hid, hv, hl, List.filterMap_cons,
              varLoop_eq env node page rest]
          · simp [varLoop, emitVar, varItemOf, hid, hv, hl, List.filterMap_cons,
              varLoop_eq env node page rest]

/-- `extractDetachedVariables` walks the bound property names in
enumeration order and emits one optional item per property. -/
theorem extractDetachedVariables_eq (env : Env) (node : Node) (page : Page) :
    extractDetachedVariables env node page =
      (node.boundVariables.getD []).filterMap (emitVar env node page) := by
  cases h : node.boundVariables with
  | none => simp [extractDetachedVariables, h]
  | some l => simp [extractDetachedVariables, h, varLoop_eq]

/-- The items contributed by one node, in emission order: the component
item of a detached instance first, then its broken-binding items. -/
def nodeItems (env : Env) (page : Page) (node : Node) : List DetachedItem :=
  (if isDetachedComponent node then [componentItem node page] else []) ++
    extractDetachedVariables env node page

theorem detachedLoop_eq (env : Env) (page : Page) :
    ∀ (ns : List Node) (items : List DetachedItem),
    detachedLoop env page ns items = items ++ ns.flatMap (nodeItems env page)
  | [], items => by simp [detachedLoop]
  | n :: rest, items => by
    have hrec := detachedLoop_eq env page rest
    by_cases hd : isDetachedComponent n
    · by_cases hv : (extractDetachedVariables env n page).length > 0
      · simp [detachedLoop, hd, hv, nodeItems, hrec]
      · have hnil : extractDetachedVariables env n page = [] := by
          simpa using Nat.eq_zero_of_not_pos hv
        simp [detachedLoop, hd, hv, nodeItems, hrec, hnil]
    · by_cases hv : (extractDetachedVariables env n page).length > 0
      · simp [detachedLoop, hd, hv, nodeItems, hrec]
      · have hnil : extractDetachedVariables env n page = [] := by
          simpa using Nat.eq_zero_of_not_pos hv
        simp [detachedLoop, hd, hv, nodeItems, hrec, hnil]

/-- `getDetachedItemsForPage` preserves discovery order: it is the
concatenation, over the traversal order of the page, of each node's items. -/
theorem getDetachedItemsForPage_eq (env : Env) (page : Page) :
    getDetachedItemsForPage env page =
      page.findAll.flatMap (nodeItems env page) := by
  simp [getDetachedItemsForPage, detachedLoop_eq]

theorem emitVar_eq_some (env : Env) (node : Node) (page : Page)
    (entry : String × Option Binding) (it : DetachedItem)
    (h : emitVar env node page entry = some it) : it = varItemOf node page entry.1 := by
  rcases entry with ⟨propertyName, binding⟩
  cases binding with
  | none => simp [emitVar] at h
  | some b =>
    cases hid : b.id with
    | none => simp [emitVar, hid] at h
    | some vid =>
      by_cases hv : vid = ""
      · simp [emitVar, hid, hv] at h
      · by_cases hl : lookupVariable env vid
        · simp [emitVar, hid, hv, hl] at h
        · simp [emitVar, hid, hv, hl] at h
          exact h.symm

/-- Every item emitted by `extractDetachedVariables` is variable-typed. -/
theorem extract_type (env : Env) (node : Node) (page : Page) (it : DetachedItem)
    (h : it ∈ extractDetachedVariables env node page) : it.type = "variable" := by
  rw [extractDetachedVariables_eq] at h
  rcases List.mem_filterMap.mp h with ⟨entry, _, hemit⟩
  rw [emitVar_eq_some env node page entry it hemit]
  rfl

/-- The pipeline 2 summary of one page: `some` exactly when the page has at
least one item. -/
def pageSummary (env : Env) (page : Page) : Option PageData :=
  let pageItems := getDetachedItemsForPage env page
  if pageItems.length > 0 then
    some { pageId := page.id, pageName := page.name, items := pageItems }
  else none

theorem scanPages_eq2 (env : Env) :
    ∀ (ps : List Page) (bd : List PageData) (tdc tdv : Nat),
    scanPages env ps bd tdc tdv =
      (bd ++ ps.filterMap (pageSummary env),
       tdc + ((ps.filterMap (pageSummary env)).map
         (fun pd => (pd.items.filter (fun it => it.type == "component")).length)).sum,
       tdv + ((ps.filterMap (pageSummary env)).map
         (fun pd => (pd.items.filter (fun it => it.type == "variable")).length)).sum)
  | [], bd, tdc, tdv => by simp [scanPages]
  | page :: rest, bd, tdc, tdv => by
    by_cases h : (getDetachedItemsForPage env page).length > 0
    · simp only [scanPages, h, if_pos, scanPages_eq2 env rest, pageSummary,
        List.filterMap_cons]
      simp [h, List.map_cons, List.sum_cons]
      constructor
      · omega
      · omega
    · simp only [scanPages, h, if_neg, scanPages_eq2 env rest, pageSummary,
        List.filterMap_cons]
      simp [h]

/-- The pipeline 2 page breakdown is the per-page summary of every page
with at least one item, in document order. -/
theorem scanFile_breakdown2 (env : Env) (doc : Doc) :
    (scanFile env doc).pageBreakdown = doc.pages.filterMap (pageSummary env) := by
  simp [scanFile, scanPages_eq2]

end P2

theorem foldl_insert_toFinset {α : Type} (f : α → String) :
    ∀ (l : List α) (s : Finset String),
    l.foldl (fun s g => insert (f g) s) s = s ∪ (l.map f).toFinset
  | [], s => by simp
  | a :: l, s => by
    rw [List.foldl_cons, foldl_insert_toFinset f l (insert (f a) s), List.map_cons,
      List.toFinset_cons, Finset.insert_union, Finset.union_insert]

theorem foldl_add_sum {α : Type} (h : α → Nat) :
    ∀ (l : List α) (n : Nat), l.foldl (fun acc g => acc + h g) n = n + (l.map h).sum
  | [], n => by simp
  | a :: l, n => by
    rw [List.foldl_cons, foldl_add_sum h l (n + h a)]
    simp [Nat.add_assoc]

theorem filter_filterMap {α β : Type} (p : α → Bool) (f : α → Option β) :
    ∀ l : List α, (l.filter p).filterMap f =
      l.filterMap (fun a => if p a then f a else none)
  | [] => by simp
  | a :: l => by
    by_cases h : p a
    · cases hf : f a with
      | none => simp [List.filter_cons, h, List.filterMap_cons, hf, filter_filterMap p f l]
      | some b => simp [List.filter_cons, h, List.filterMap_cons, hf, filter_filterMap p f l]
    · simp [List.filter_cons, h, List.filterMap_cons, filter_filterMap p f l]

theorem flatMap_toFinset_congr {α : Type} (f g : α → List String) :
    ∀ (l : List α), (∀ a ∈ l, (f a).toFinset = (g a).toFinset) →
    (l.flatMap f).toFinset = (l.flatMap g).toFinset
  | [], _ => by simp
  | a :: l, h => by
    simp only [List.flatMap_cons, List.toFinset_append]
    rw [h a (by simp), flatMap_toFinset_congr f g l (fun b hb => h b (by simp [hb]))]

namespace P1

/-- The deduplication key the aggregator reads back from a group:
`group.componentKey || group.componentId`. -/
def groupKeyOf (g : ComponentGroup) : String := optOrStr g.componentKey g.componentId

theorem freshGroup_key (main : ComponentDef) :
    groupKeyOf (freshGroup main) = strOr main.key main.id := by
  by_cases h : main.key = "" <;>
    simp [groupKeyOf, freshGroup, optOfStr, optOrStr, strOr, h]

theorem pushToGroup_inv :
    ∀ (m : List (String × ComponentGroup)) (k : String) (fresh : ComponentGroup)
      (u : InstanceUsage),
    (∀ p ∈ m, groupKeyOf p.2 = p.1) → groupKeyOf fresh = k →
    ∀ p ∈ pushToGroup m k fresh u, groupKeyOf p.2 = p.1
  | [], k, fresh, u, _, hf => by
    intro p hp
    simp only [pushToGroup, List.mem_singleton] at hp
    subst hp
    simpa [groupKeyOf] using hf
  | (k2, g) :: rest, k, fresh, u, hm, hf => by
    by_cases hk : k2 = k
    · subst hk
      simp only [pushToGroup, if_pos]
      intro p hp
      rcases List.mem_cons.mp hp with h | h
      · subst h
        simpa [groupKeyOf] using hm (k2, g) (by simp)
      · exact hm p (by simp [h])
    · simp only [pushToGroup, hk, if_neg, not_false_iff]
      intro p hp
      rcases List.mem_cons.mp hp with h | h
      · subst h
        exact hm (k2, g) (by simp)
      · exact pushToGroup_inv rest k fresh u (fun q hq => hm q (by simp [hq])) hf p h

theorem pushToGroup_keys_toFinset :
    ∀ (m : List (String × ComponentGroup)) (k : String) (fresh : ComponentGroup)
      (u : InstanceUsage),
    ((pushToGroup m k fresh u).map Prod.fst).toFinset =
      insert k (m.map Prod.fst).toFinset
  | [], k, fresh, u => by simp [pushToGroup]
  | (k2, g) :: rest, k, fresh, u => by
    by_cases hk : k2 = k
    · subst hk
      simp [pushToGroup]
    · simp only [pushToGroup, hk, if_neg, not_false_iff, List.map_cons,
        List.toFinset_cons, pushToGroup_keys_toFinset rest k fresh u]
      ext x
      simp
      tauto

/-- The group keys of the qualifying instances in a node list, in
encounter order: the key of the definition when non-empty, else its id. -/
def qualKeys : List Node → List String :=
  List.filterMap (fun n =>
    match n.mainComponent with
    | .present main => some (strOr main.key main.id)
    | _ => none)

theorem buildGroups_inv :
    ∀ (insts : List Node) (m : List (String × ComponentGroup)),
    (∀ p ∈ m, groupKeyOf p.2 = p.1) →
    ∀ p ∈ buildGroups insts m, groupKeyOf p.2 = p.1
  | [], m, hm => by simpa [buildGroups] using hm
  | inst :: rest, m, hm => by
    cases h : inst.mainComponent with
    | present main =>
      simp only [buildGroups, h]
      exact buildGroups_inv rest _
        (pushToGroup_inv m _ _ _ hm (freshGroup_key main))
    | nullRef => simp only [buildGroups, h]; exact buildGroups_inv rest m hm
    | unset => simp only [buildGroups, h]; exact buildGroups_inv rest m hm

theorem buildGroups_keys_toFinset :
    ∀ (insts : List Node) (m : List (String × ComponentGroup)),
    ((buildGroups insts m).map Prod.fst).toFinset =
      (m.map Prod.fst).toFinset ∪ (qualKeys insts).toFinset
  | [], m => by simp [buildGroups, qualKeys]
  | inst :: rest, m => by
    cases h : inst.mainComponent with
    | present main =>
      simp only [buildGroups, h, qualKeys, List.filterMap_cons, List.toFinset_cons]
      rw [show (List.filterMap (fun n =>
            match n.mainComponent with
            | .present main => some (strOr main.key main.id)
            | _ => none) rest) = qualKeys rest from rfl,
        buildGroups_keys_toFinset rest _, pushToGroup_keys_toFinset,
        Finset.insert_union, Finset.union_insert]
    | nullRef =>
      simp only [buildGroups, h, qualKeys, List.filterMap_cons]
      exact buildGroups_keys_toFinset rest m
    | unset =>
      simp only [buildGroups, h, qualKeys, List.filterMap_cons]
      exact buildGroups_keys_toFinset rest m

theorem map_groupKeyOf_eq_keys :
    ∀ (m : List (String × ComponentGroup)),
    (∀ p ∈ m, groupKeyOf p.2 = p.1) →
    (m.map Prod.snd).map groupKeyOf = m.map Prod.fst
  | [], _ => by simp
  | (k, g) :: rest, hm => by
    simp only [List.map_cons, List.cons.injEq]
    exact ⟨hm (k, g) (by simp),
      map_groupKeyOf_eq_keys rest (fun q hq => hm q (by simp [hq]))⟩

/-- The set of group keys emitted for one page equals the set of group
keys of its qualifying instances: grouping deduplicates within a page and
sorting changes no keys. -/
theorem getInstancesForPage_keys (lc : String → String → Int) (page : Page) :
    ((getInstancesForPage lc page).map groupKeyOf).toFinset =
      (qualKeys (page.findAll.filter (fun n => n.type == "INSTANCE"))).toFinset := by
  have hinv := buildGroups_inv (page.findAll.filter (fun n => n.type == "INSTANCE")) []
    (by simp)
  have hkeys := buildGroups_keys_toFinset
    (page.findAll.filter (fun n => n.type == "INSTANCE")) []
  have h1 : (getInstancesForPage lc page).map groupKeyOf =
      (List.insertionSort (fun a b => lc a.componentName b.componentName ≤ 0)
        ((buildGroups (page.findAll.filter (fun n => n.type == "INSTANCE")) []).map
          Prod.snd)).map groupKeyOf := by
    simp only [getInstancesForPage, List.map_map]
    rfl
  rw [h1,
    List.toFinset_eq_of_perm _ _ ((List.perm_insertionSort _ _).map groupKeyOf),
    map_groupKeyOf_eq_keys _ hinv]
  simpa using hkeys

/-- Skipping instances whose definition reference is absent: a node list
with no present definition builds no groups. -/
theorem buildGroups_of_no_main :
    ∀ (insts : List Node) (m : List (String × ComponentGroup)),
    (∀ n ∈ insts, ∀ c, n.mainComponent ≠ MainRef.present c) →
    buildGroups insts m = m
  | [], m, _ => rfl
  | inst :: rest, m, h => by
    cases hm : inst.mainComponent with
    | present main => exact absurd hm (h inst (by simp) main)
    | nullRef =>
      simp only [buildGroups, hm]
      exact buildGroups_of_no_main rest m (fun n hn => h n (by simp [hn]))
    | unset =>
      simp only [buildGroups, hm]
      exact buildGroups_of_no_main rest m (fun n hn => h n (by simp [hn]))

/-- The pipeline 1 summary of one page: `some` exactly when the page has at
least one group. -/
def pageSummary (lc : String → String → Int) (page : Page) : Option PageData :=
  let componentGroups := getInstancesForPage lc page
  if componentGroups.isEmpty then none
  else some
    { pageId := page.id
      pageName := page.name
      instanceCount := componentGroups.foldl (fun acc g => acc + g.instances.length) 0
      componentGroups := componentGroups }

theorem scanPages_eq (lc : String → String → Int) :
    ∀ (ps : List Page) (bd : List PageData) (ti : Nat) (uk : Finset String),
    scanPages lc ps bd ti uk =
      (bd ++ ps.filterMap (pageSummary lc),
       ti + ((ps.filterMap (pageSummary lc)).map PageData.instanceCount).sum,
       uk ∪ (ps.flatMap (fun p => (getInstancesForPage lc p).map groupKeyOf)).toFinset)
  | [], bd, ti, uk => by simp [scanPages]
  | page :: rest, bd, ti, uk => by
    by_cases h : (getInstancesForPage lc page).isEmpty
    · have hnil : getInstancesForPage lc page = [] := by simpa using h
      simp only [scanPages, h, if_pos, scanPages_eq lc rest, pageSummary,
        List.filterMap_cons, List.flatMap_cons, hnil, List.map_nil,
        List.nil_append, List.isEmpty_nil, List.toFinset_append, List.toFinset_nil]
    · have hfalse : (getInstancesForPage lc page).isEmpty = false := by
        simpa using h
      simp only [scanPages, pageSummary, hfalse, Bool.false_eq_true, if_false,
        scanPages_eq lc rest, List.filterMap_cons, List.flatMap_cons,
        List.toFinset_append]
      rw [foldl_insert_toFinset
        (fun g : ComponentGroup => optOrStr g.componentKey g.componentId)]
      simp only [Prod.mk.injEq, List.map_cons, List.sum_cons]
      refine ⟨by simp, by omega, ?_⟩
      rw [Finset.union_assoc]
      rfl

/-- The pipeline 1 page breakdown is the per-page summary of every page
with at least one group, in document order. -/
theorem scanFile_breakdown (lc : String → String → Int) (doc : Doc) :
    (scanFile lc doc).pageBreakdown = doc.pages.filterMap (pageSummary lc) := by
  simp [scanFile, scanPages_eq]

/-- `totalInstances` is the sum of the reported per-page instance counts. -/
theorem scanFile_totalInstances (lc : String → String → Int) (doc : Doc) :
    (scanFile lc doc).totalInstances =
      ((scanFile lc doc).pageBreakdown.map PageData.instanceCount).sum := by
  simp [scanFile, scanPages_eq]

/-- `totalUniqueComponents` counts the distinct group keys over the whole
file. -/
theorem scanFile_unique (lc : String → String → Int) (doc : Doc) :
    (scanFile lc doc).totalUniqueComponents =
      (doc.pages.flatMap
        (fun p => (getInstancesForPage lc p).map groupKeyOf)).toFinset.card := by
  simp [scanFile, scanPages_eq]

end P1

namespace P1T

open P1 (InstanceUsage ComponentGroup PageData SummaryData)

/-- Pipeline 1 TypeScript source (src/dist/code.js lines 176 to 213): the
group created on first encounter of a definition. -/
def freshGroup (main : ComponentDef) : ComponentGroup :=
  { componentId := main.id
    componentKey := optOfStr main.key
    componentName := strOr main.name "Unnamed Component"
    instances := [] }

/-- Pipeline 1 TypeScript source: the member record for one instance
(src/dist/code.js lines 199 to 205). -/
def instanceRecord (inst : Node) (main : ComponentDef) : InstanceUsage :=
  { id := inst.id
    name := strOr inst.name "Instance"
    componentId := main.id
    componentKey := optOfStr main.key
    componentName := strOr main.name "Unnamed Component" }

/-- Pipeline 1 TypeScript source: the get-or-create-then-push step of the
`groups` map (src/dist/code.js lines 189 to 205). -/
def pushToGroup : List (String × ComponentGroup) → String → ComponentGroup →
    InstanceUsage → List (String × ComponentGroup)
  | [], k, fresh, u => [(k, { fresh with instances := fresh.instances ++ [u] })]
  | (k2, g) :: rest, k, fresh, u =>
    if k2 = k then (k2, { g with instances := g.instances ++ [u] }) :: rest
    else (k2, g) :: pushToGroup rest k fresh u

/-- Pipeline 1 TypeScript source: the instance loop of
`getInstancesForPage` (src/dist/code.js lines 180 to 206). -/
def buildGroups : List Node → List (String × ComponentGroup) →
    List (String × ComponentGroup)
  | [], groups => groups
  | inst :: rest, groups =>
    match inst.mainComponent with
    | .present main =>
      buildGroups rest
        (pushToGroup groups (strOr main.key main.id) (freshGroup main) (instanceRecord inst main))
    | _ => buildGroups rest groups

/-- Pipeline 1 TypeScript `getInstancesForPage` (src/dist/code.js lines
176 to 213). -/
def getInstancesForPage (lc : String → String → Int) (page : Page) :
    List ComponentGroup :=
  let instances := page.findAll.filter (fun n => n.type == "INSTANCE")
  let groups := buildGroups instances []
  let sortedGroups :=
    List.insertionSort (fun a b => lc a.componentName b.componentName ≤ 0)
      (groups.map Prod.snd)
  sortedGroups.map
    (fun g => { g with
      instances := List.insertionSort (fun a b => lc a.name b.name ≤ 0) g.instances })

/-- Pipeline 1 TypeScript source: the page loop of `scanFile`
(src/dist/code.js lines 221 to 239). -/
def scanPages (lc : String → String → Int) :
    List Page → List PageData → Nat → Finset String →
    List PageData × Nat × Finset String
  | [], pageBreakdown, totalInstances, uniqueComponentKeys =>
    (pageBreakdown, totalInstances, uniqueComponentKeys)
  | page :: rest, pageBreakdown, totalInstances, uniqueComponentKeys =>
    let componentGroups := getInstancesForPage lc page
    if componentGroups.isEmpty then
      scanPages lc rest pageBreakdown totalInstances uniqueComponentKeys
    else
      let instanceCount := componentGroups.foldl (fun acc g => acc + g.instances.length) 0
      scanPages lc rest
        (pageBreakdown ++ [{ pageId := page.id, pageName := page.name,
                             instanceCount := instanceCount,
                             componentGroups := componentGroups }])
        (totalInstances + instanceCount)
        (componentGroups.foldl
          (fun s g => insert (optOrStr g.componentKey g.componentId) s)
          uniqueComponentKeys)

/-- Pipeline 1 TypeScript `scanFile` (src/dist/code.js lines 215 to 246). -/
def scanFile (lc : String → String → Int) (doc : Doc) : SummaryData :=
  let out := scanPages lc doc.pages [] 0 ∅
  { totalInstances := out.2.1
    totalUniqueComponents := out.2.2.card
    pageBreakdown := out.1 }

theorem pushToGroup_agrees :
    ∀ (m : List (String × ComponentGroup)) (k : String) (fresh : ComponentGroup)
      (u : InstanceUsage), pushToGroup m k fresh u = P1.pushToGroup m k fresh u
  | [], _, _, _ => rfl
  | (k2, g) :: rest, k, fresh, u => by
    simp only [pushToGroup, P1.pushToGroup, pushToGroup_agrees rest k fresh u]

theorem buildGroups_agrees :
    ∀ (insts : List Node) (m : List (String × ComponentGroup)),
    buildGroups insts m = P1.buildGroups insts m
  | [], _ => rfl
  | inst :: rest, m => by
    cases h : inst.mainComponent with
    | present main =>
      simp only [buildGroups, P1.buildGroups, h, pushToGroup_agrees,
        buildGroups_agrees rest]
      rfl
    | nullRef => simp only [buildGroups, P1.buildGroups, h, buildGroups_agrees rest]
    | unset => simp only [buildGroups, P1.buildGroups, h, buildGroups_agrees rest]

theorem getInstancesForPage_agrees (lc : String → String → Int) (page : Page) :
    getInstancesForPage lc page = P1.getInstancesForPage lc page := by
  simp only [getInstancesForPage, P1.getInstancesForPage, buildGroups_agrees]

theorem scanPages_agrees (lc : String → String → Int) :
    ∀ (ps : List Page) (bd : List PageData) (ti : Nat) (uk : Finset String),
    scanPages lc ps bd ti uk = P1.scanPages lc ps bd ti uk
  | [], _, _, _ => rfl
  | page :: rest, bd, ti, uk => by
    simp only [scanPages, P1.scanPages, getInstancesForPage_agrees,
      scanPages_agrees lc rest]

end P1T

namespace P2T

open P2 (DetachedItem PageData SummaryData)

/-- Pipeline 2 TypeScript source: the loop of `extractDetachedVariables`
(src/unnamed/part_001 lines 38 to 58). -/
def varLoop (env : Env) (node : Node) (page : Page) :
    List (String × Option Binding) → List DetachedItem → List DetachedItem
  | [], items => items
  | (propertyName, binding) :: rest, items =>
    match binding with
    | none => varLoop env node page rest items
    | some b =>
      match b.id with
      | none => varLoop env node page rest items
      | some variableId =>
        if variableId = "" then varLoop env node page rest items
        else if lookupVariable env variableId then varLoop env node page rest items
        else varLoop env node page rest (items ++
          [{ id := node.id
             name := strOr node.name node.type ++ " · " ++ propertyName
             type := "variable"
             pageId := page.id
             pageName := page.name
             metadata := some [("property", propertyName)] }])

/-- Pipeline 2 TypeScript `extractDetachedVariables`
(src/unnamed/part_001 lines 34 to 61). -/
def extractDetachedVariables (env : Env) (node : Node) (page : Page) :
    List DetachedItem :=
  match node.boundVariables with
  | none => []
  | some boundVars => varLoop env node page boundVars []

/-- Pipeline 2 TypeScript source: the component item for a detached
instance (src/unnamed/part_001 lines 68 to 74). -/
def componentItem (node : Node) (page : Page) : DetachedItem :=
  { id := node.id
    name := strOr node.name "Unnamed Instance"
    type := "component"
    pageId := page.id
    pageName := page.name
    metadata := none }

/-- Pipeline 2 TypeScript source: the node loop of
`getDetachedItemsForPage` (src/unnamed/part_001 lines 66 to 81). -/
def detachedLoop (env : Env) (page : Page) :
    List Node → List DetachedItem → List DetachedItem
  | [], items => items
  | node :: rest, items =>
    let items1 := if P2.isDetachedComponent node then items ++ [componentItem node page] else items
    let variableIssues := extractDetachedVariables env node page
    let items2 := if variableIssues.length > 0 then items1 ++ variableIssues else items1
    detachedLoop env page rest items2

/-- Pipeline 2 TypeScript `getDetachedItemsForPage`
(src/unnamed/part_001 lines 63 to 83). -/
def getDetachedItemsForPage (env : Env) (page : Page) : List DetachedItem :=
  detachedLoop env page page.findAll []

/-- Pipeline 2 TypeScript source: the page loop of `scanFile`
(src/unnamed/part_001 lines 91 to 102). -/
def scanPages (env : Env) :
    List Page → List PageData → Nat → Nat → List PageData × Nat × Nat
  | [], pageBreakdown, tdc, tdv => (pageBreakdown, tdc, tdv)
  | page :: rest, pageBreakdown, tdc, tdv =>
    let pageItems := getDetachedItemsForPage env page
    if pageItems.length > 0 then
      scanPages env rest
        (pageBreakdown ++ [{ pageId := page.id, pageName := page.name, items := pageItems }])
        (tdc + (pageItems.filter (fun it => it.type == "component")).length)
        (tdv + (pageItems.filter (fun it => it.type == "variable")).length)
    else
      scanPages env rest pageBreakdown tdc tdv

/-- Pipeline 2 TypeScript `scanFile` (src/unnamed/part_001 lines 85 to 109). -/
def scanFile (env : Env) (doc : Doc) : SummaryData :=
  let out := scanPages env doc.pages [] 0 0
  { totalDetachedComponents := out.2.1
    totalDetachedVariables := out.2.2
    pageBreakdown := out.1 }

theorem varLoop_agrees (env : Env) (node : Node) (page : Page) :
    ∀ (l : List (String × Option Binding)) (items : List DetachedItem),
    varLoop env node page l items = P2.varLoop env node page l items
  | [], _ => rfl
  | (propertyName, binding) :: rest, items => by
    cases binding with
    | none => simp only [varLoop, P2.varLoop, varLoop_agrees env node page rest]
    | some b =>
      cases hid : b.id with
      | none => simp only [varLoop, P2.varLoop, hid, varLoop_agrees env node page rest]
      | some vid =>
        simp only [varLoop, P2.varLoop, hid, varLoop_agrees env node page rest]

theorem extract_agrees (env : Env) (node : Node) (page : Page) :
    extractDetachedVariables env node page = P2.extractDetachedVariables env node page := by
  cases h : node.boundVariables with
  | none => simp [extractDetachedVariables, P2.extractDetachedVariables, h]
  | some l =>
    simp [extractDetachedVariables, P2.extractDetachedVariables, h, varLoop_agrees]

theorem detachedLoop_agrees (env : Env) (page : Page) :
    ∀ (ns : List Node) (items : List DetachedItem),
    detachedLoop env page ns items = P2.detachedLoop env page ns items
  | [], _ => rfl
  | n :: rest, items => by
    simp only [detachedLoop, P2.detachedLoop, extract_agrees,
      detachedLoop_agrees env page rest]
    rfl

theorem getDetached_agrees (env : Env) (page : Page) :
    getDetachedItemsForPage env page = P2.getDetachedItemsForPage env page := by
  simp only [getDetachedItemsForPage, P2.getDetachedItemsForPage, detachedLoop_agrees]

theorem scanPages_agrees2 (env : Env) :
    ∀ (ps : List Page) (bd : List PageData) (tdc tdv : Nat),
    scanPages env ps bd tdc tdv = P2.scanPages env ps bd tdc tdv
  | [], _, _, _ => rfl
  | page :: rest, bd, tdc, tdv => by
    simp only [scanPages, P2.scanPages, getDetached_agrees, scanPages_agrees2 env rest]

end P2T

theorem flatMap_ite_singleton {α β : Type} (p : α → Bool) (f : α → β) :
    ∀ l : List α, (l.flatMap (fun a => if p a then [f a] else [])) =
      (l.filter p).map f
  | [] => rfl
  | a :: l => by
    by_cases h : p a
    · simp [List.flatMap_cons, List.filter_cons, h, flatMap_ite_singleton p f l]
    · simp [List.flatMap_cons, List.filter_cons, h, flatMap_ite_singleton p f l]

/-- The parent-chain walk finds a page exactly when the chain holds an
ancestor typed PAGE. -/
theorem resolvePage_isSome_iff :
    ∀ chain : List Ancestor,
    (resolvePage chain).isSome ↔ ∃ a ∈ chain, a.type = "PAGE"
  | [] => by simp [resolvePage]
  | a :: rest => by
    by_cases h : a.type = "PAGE"
    · simp [resolvePage, h]
    · simp only [resolvePage, h, if_false, resolvePage_isSome_iff rest,
        List.mem_cons]
      constructor
      · rintro ⟨b, hb, hbp⟩
        exact ⟨b, Or.inr hb, hbp⟩
      · rintro ⟨b, hb | hb, hbp⟩
        · subst hb; exact absurd hbp h
        · exact ⟨b, hb, hbp⟩

namespace P2

theorem filter_prop_nil (env : Env) (node : Node) (page : Page) (prop : String) :
    ∀ l : List (String × Option Binding),
    (∀ e ∈ l, e.1 = prop → emitVar env node page e = none) →
    ((l.filterMap (emitVar env node page)).filter
      (fun it => it.metadata == some [("property", prop)])) = []
  | [], _ => rfl
  | e :: rest, h => by
    have hrest := filter_prop_nil env node page prop rest
      (fun e2 he2 => h e2 (by simp [he2]))
    cases hemit : emitVar env node page e with
    | none => simpa [List.filterMap_cons, hemit] using hrest
    | some it =>
      have hne : e.1 ≠ prop := fun hp => by
        have := h e (by simp) hp
        rw [this] at hemit
        exact Option.noConfusion hemit
      have hit := emitVar_eq_some env node page e it hemit
      simp only [List.filterMap_cons, hemit, List.filter_cons, hit, varItemOf]
      simpa [hne] using hrest

theorem filter_prop_single (env : Env) (node : Node) (page : Page)
    (prop : String) (b : Binding) (vid : String) :
    ∀ l : List (String × Option Binding),
    (l.map Prod.fst).Nodup → (prop, some b) ∈ l →
    b.id = some vid → vid ≠ "" → lookupVariable env vid = false →
    ((l.filterMap (emitVar env node page)).filter
      (fun it => it.metadata == some [("property", prop)])) =
      [varItemOf node page prop]
  | [], _, hmem, _, _, _ => absurd hmem (List.not_mem_nil _)
  | e :: rest, hnd, hmem, hid, hne, hlk => by
    have hnd2 : (rest.map Prod.fst).Nodup := (List.nodup_cons.mp hnd).2
    have hhd : e.1 ∉ rest.map Prod.fst := (List.nodup_cons.mp hnd).1
    rcases List.mem_cons.mp hmem with heq | hmem2
    · subst heq
      have hemit : emitVar env node page (prop, some b) =
          some (varItemOf node page prop) := by
        simp [emitVar, hid, hne, hlk]
      have htail : ((rest.filterMap (emitVar env node page)).filter
          (fun it => it.metadata == some [("property", prop)])) = [] := by
        refine filter_prop_nil env node page prop rest (fun e2 he2 hp => ?_)
        exact absurd (by simpa [hp] using List.mem_map_of_mem Prod.fst he2) hhd
      simp only [List.filterMap_cons, hemit, List.filter_cons]
      simpa [varItemOf] using htail
    · have hkne : e.1 ≠ prop := fun hp => by
        have : prop ∈ rest.map Prod.fst := by
          simpa using List.mem_map_of_mem Prod.fst hmem2
        exact hhd (hp ▸ this)
      have hrest := filter_prop_single env node page prop b vid rest
        hnd2 hmem2 hid hne hlk
      cases hemit : emitVar env node page e with
      | none => simpa [List.filterMap_cons, hemit] using hrest
      | some it =>
        have hit := emitVar_eq_some env node page e it hemit
        simp only [List.filterMap_cons, hemit, List.filter_cons, hit, varItemOf]
        simpa [hkne] using hrest

end P2

namespace P1

/-- Sortedness of one page of pipeline 1 output, for any total and
transitive comparator. -/
theorem getInstancesForPage_sorted (lc : String → String → Int)
    (htr : ∀ a b c, lc a b ≤ 0 → lc b c ≤ 0 → lc a c ≤ 0)
    (hto : ∀ a b, lc a b ≤ 0 ∨ lc b a ≤ 0) (page : Page) :
    (P1.getInstancesForPage lc page).Pairwise
      (fun a b => lc a.componentName b.componentName ≤ 0) ∧
    ∀ g ∈ P1.getInstancesForPage lc page,
      g.instances.Pairwise (fun a b => lc a.name b.name ≤ 0) := by
  haveI h1 : IsTotal P1.ComponentGroup
      (fun a b => lc a.componentName b.componentName ≤ 0) := ⟨fun a b => hto _ _⟩
  haveI h2 : IsTrans P1.ComponentGroup
      (fun a b => lc a.componentName b.componentName ≤ 0) :=
    ⟨fun a b c => htr _ _ _⟩
  haveI h3 : IsTotal P1.InstanceUsage (fun a b => lc a.name b.name ≤ 0) :=
    ⟨fun a b => hto _ _⟩
  haveI h4 : IsTrans P1.InstanceUsage (fun a b => lc a.name b.name ≤ 0) :=
    ⟨fun a b c => htr _ _ _⟩
  constructor
  · refine List.Pairwise.map _ (fun a b hab => hab) ?_
    exact List.sorted_insertionSort _ _
  · intro g hg
    simp only [P1.getInstancesForPage, List.mem_map] at hg
    rcases hg with ⟨g0, _, hg0⟩
    subst hg0
    exact List.sorted_insertionSort _ _

end P1

theorem flatMap_congr_mem {α β : Type} (f g : α → List β) :
    ∀ l : List α, (∀ a ∈ l, f a = g a) → l.flatMap f = l.flatMap g
  | [], _ => rfl
  | a :: l, h => by
    simp only [List.flatMap_cons, h a (by simp),
      flatMap_congr_mem f g l (fun b hb => h b (by simp [hb]))]

/-- An example locale comparator for concrete witnesses: order display
names by length.  It is total and transitive, as a consistent
`localeCompare` is. -/
def exLc (a b : String) : Int := (a.length : Int) - (b.length : Int)

theorem exLc_trans (a b c : String) (h1 : exLc a b ≤ 0) (h2 : exLc b c ≤ 0) :
    exLc a c ≤ 0 := by
  simp only [exLc] at h1 h2 ⊢
  omega

theorem exLc_total (a b : String) : exLc a b ≤ 0 ∨ exLc b a ≤ 0 := by
  simp only [exLc]
  omega

def exDefA : ComponentDef := ⟨"5:1", "K1", "Logo Set"⟩

def exDefB : ComponentDef := ⟨"5:2", "K2", "Header"⟩

/-- Example page: three live instances of two definitions. -/
def exPageCover : Page :=
  ⟨"1:2", "Cover",
    [.mk "2:1" "Logo" "INSTANCE" (.present exDefA) none [],
     .mk "2:2" "logo-small" "INSTANCE" (.present exDefA) none [],
     .mk "2:3" "Header" "INSTANCE" (.present exDefB) none []]⟩

/-- Example page reusing the first definition, so unique-component
deduplication crosses pages. -/
def exPageAbout : Page :=
  ⟨"1:3", "About", [.mk "2:4" "Logo" "INSTANCE" (.present exDefA) none []]⟩

/-- Example page with one orphaned instance and one broken binding. -/
def exPageGhosts : Page :=
  ⟨"1:4", "Ghosts",
    [.mk "3:1" "Ghost" "INSTANCE" .nullRef none [],
     .mk "3:2" "Frame" "FRAME" .unset
       (some [("fill", some ⟨some "v9"⟩), ("stroke", none)]) []]⟩

def exDoc : Doc := ⟨[exPageCover, exPageAbout, exPageGhosts]⟩

/-- Example host variable registry: only `v1` is live. -/
def exEnv : Env := ⟨some ["v1"]⟩

/-- Example live-node table for navigation: one node inside a page. -/
def exHost : List LiveNode := [⟨"n1", [⟨"4:1", "FRAME"⟩, ⟨"1:2", "PAGE"⟩]⟩]

/-- C1: for every document, pipeline 1 `totalUniqueComponents` equals the
number of distinct group keys (the definition key when non-empty, else the
definition node id) over all qualifying instances in the whole file, so a
definition instantiated on two different pages is counted once. -/
theorem claim_C1 (lc : String → String → Int) (doc : Doc) :
    (P1.scanFile lc doc).totalUniqueComponents =
      (doc.pages.flatMap (fun p =>
        P1.qualKeys (p.findAll.filter (fun n => n.type == "INSTANCE")))).toFinset.card := by
  rw [P1.scanFile_unique]
  congr 1
  exact flatMap_toFinset_congr _ _ doc.pages
    (fun p _ => P1.getInstancesForPage_keys lc p)

/-- C2: in every pipeline 1 summary, each page record's `instanceCount`
equals the sum of `instances.length` over its `componentGroups`, and
`totalInstances` equals the sum of `instanceCount` over `pageBreakdown`. -/
theorem claim_C2 (lc : String → String → Int) (doc : Doc) :
    (P1.scanFile lc doc).totalInstances =
      ((P1.scanFile lc doc).pageBreakdown.map P1.PageData.instanceCount).sum ∧
    ∀ pd ∈ (P1.scanFile lc doc).pageBreakdown,
      pd.instanceCount = (pd.componentGroups.map (fun g => g.instances.length)).sum := by
  refine ⟨P1.scanFile_totalInstances lc doc, ?_⟩
  intro pd hpd
  rw [P1.scanFile_breakdown] at hpd
  rcases List.mem_filterMap.mp hpd with ⟨p, _, hps⟩
  by_cases h : (P1.getInstancesForPage lc p).isEmpty
  · simp [P1.pageSummary, h] at hps
  · have hfalse : (P1.getInstancesForPage lc p).isEmpty = false := by simpa using h
    simp only [P1.pageSummary, hfalse, Bool.false_eq_true, if_false,
      Option.some.injEq] at hps
    subst hps
    simpa using foldl_add_sum (fun g : P1.ComponentGroup => g.instances.length)
      (P1.getInstancesForPage lc p) 0

/-- C2 witness: both sum invariants evaluated on a concrete document. -/
theorem claim_C2_witness :
    (P1.scanFile exLc exDoc).totalInstances =
      ((P1.scanFile exLc exDoc).pageBreakdown.map P1.PageData.instanceCount).sum ∧
    ((P1.scanFile exLc exDoc).pageBreakdown.headD ⟨"", "", 0, []⟩).instanceCount =
      (((P1.scanFile exLc exDoc).pageBreakdown.headD ⟨"", "", 0, []⟩).componentGroups.map
        (fun g => g.instances.length)).sum :=
  ⟨(claim_C2 exLc exDoc).1, (claim_C2 exLc exDoc).2 _ (by decide)⟩

/-- C3: for a page whose instance nodes all have a confirmed-null
definition reference (and at least one instance), pipeline 1 omits the
page from its breakdown, while pipeline 2 includes it with exactly one
component-typed item per such instance, in traversal order.  A node is an
orphaned instance exactly when its type is INSTANCE and its
`mainComponent` is confirmed null; an unset reference does not qualify. -/
theorem claim_C3 (lc : String → String → Int) (env : Env) (doc : Doc) (page : Page)
    (hmem : page ∈ doc.pages) (hnodup : (doc.pages.map Page.id).Nodup)
    (hall : ∀ n ∈ page.findAll, n.type = "INSTANCE" →
      n.mainComponent = MainRef.nullRef)
    (hsome : ∃ n ∈ page.findAll, n.type = "INSTANCE") :
    (∀ pd ∈ (P1.scanFile lc doc).pageBreakdown, pd.pageId ≠ page.id) ∧
    (∃ pd ∈ (P2.scanFile env doc).pageBreakdown, pd.pageId = page.id ∧
      (pd.items.filter (fun it => it.type == "component")).map (fun it => it.id) =
        (page.findAll.filter (fun n => n.type == "INSTANCE")).map Node.id) := by
  have hgnil : P1.getInstancesForPage lc page = [] := by
    have hb : P1.buildGroups (page.findAll.filter (fun n => n.type == "INSTANCE")) []
        = [] := by
      apply P1.buildGroups_of_no_main
      intro n hn c hc
      have hn2 := List.mem_filter.mp hn
      have htype : n.type = "INSTANCE" := by simpa using hn2.2
      have hnull := hall n hn2.1 htype
      rw [hnull] at hc
      exact MainRef.noConfusion hc
    simp [P1.getInstancesForPage, hb]
  constructor
  · intro pd hpd hpe
    rw [P1.scanFile_breakdown] at hpd
    rcases List.mem_filterMap.mp hpd with ⟨p, hp, hps⟩
    by_cases hemp : (P1.getInstancesForPage lc p).isEmpty
    · simp [P1.pageSummary, hemp] at hps
    · have hfalse : (P1.getInstancesForPage lc p).isEmpty = false := by simpa using hemp
      simp only [P1.pageSummary, hfalse, Bool.false_eq_true, if_false,
        Option.some.injEq] at hps
      subst hps
      have hpe2 : p.id = page.id := hpe
      have hpp : p = page :=
        List.inj_on_of_nodup_map hnodup hp hmem (by simpa using hpe2)
      rw [hpp, hgnil] at hfalse
      simp at hfalse
  · have hdet : ∀ n ∈ page.findAll,
        P2.isDetachedComponent n = (n.type == "INSTANCE") := by
      intro n hn
      by_cases ht : n.type = "INSTANCE"
      · have hnull := hall n hn ht
        simp [P2.isDetachedComponent, P2.isInstanceNode, ht, hnull]
      · simp [P2.isDetachedComponent, P2.isInstanceNode, ht]
    have hcomp : (P2.getDetachedItemsForPage env page).filter
        (fun it => it.type == "component") =
        (page.findAll.filter (fun n => n.type == "INSTANCE")).map
          (fun n => P2.componentItem n page) := by
      rw [P2.getDetachedItemsForPage_eq, List.filter_flatMap]
      have hnode : ∀ n ∈ page.findAll,
          (P2.nodeItems env page n).filter (fun it => it.type == "component") =
            (if P2.isDetachedComponent n then [P2.componentItem n page] else []) := by
        intro n _
        have hvars : (P2.extractDetachedVariables env n page).filter
            (fun it => it.type == "component") = [] := by
          refine List.filter_eq_nil_iff.mpr (fun it hit => ?_)
          rw [P2.extract_type env n page it hit]
          simp
        by_cases hd : P2.isDetachedComponent n <;>
          simp [P2.nodeItems, hd, List.filter_append, hvars, P2.componentItem]
      rw [flatMap_congr_mem _ _ page.findAll hnode,
        flatMap_ite_singleton P2.isDetachedComponent (fun n => P2.componentItem n page),
        List.filter_congr (fun n hn => hdet n hn)]
    rcases hsome with ⟨n0, hn0, ht0⟩
    have hn0f : n0 ∈ page.findAll.filter (fun n => n.type == "INSTANCE") :=
      List.mem_filter.mpr ⟨hn0, by simp [ht0]⟩
    have hci : P2.componentItem n0 page ∈
        (P2.getDetachedItemsForPage env page).filter
          (fun it => it.type == "component") := by
      rw [hcomp]
      exact List.mem_map_of_mem _ hn0f
    have hlen : (P2.getDetachedItemsForPage env page).length > 0 :=
      List.length_pos.mpr (List.ne_nil_of_mem (List.mem_of_mem_filter hci))
    have hsum : P2.pageSummary env page =
        some ⟨page.id, page.name, P2.getDetachedItemsForPage env page⟩ := by
      simp [P2.pageSummary, hlen]
    refine ⟨⟨page.id, page.name, P2.getDetachedItemsForPage env page⟩, ?_, rfl, ?_⟩
    · rw [P2.scanFile_breakdown2]
      exact List.mem_filterMap.mpr ⟨page, hmem, hsum⟩
    · rw [hcomp, List.map_map]
      rfl

/-- C3 witness: on the concrete document, the all-orphans page is absent
from the pipeline 1 breakdown and present in the pipeline 2 breakdown. -/
theorem claim_C3_witness :
    ((P1.scanFile exLc exDoc).pageBreakdown.headD ⟨"", "", 0, []⟩).pageId ≠
      exPageGhosts.id ∧
    ((P2.scanFile exEnv exDoc).pageBreakdown.map P2.PageData.pageId) = ["1:4"] := by
  have h := claim_C3 exLc exEnv exDoc exPageGhosts (by simp [exDoc])
    (by decide) (by decide) (by decide)
  exact ⟨h.1 _ (by decide), by decide⟩

/-- C4 (amended): for a node with a bound property whose binding id is a
non-empty string that resolves to no live variable, pipeline 2 emits
exactly one variable-typed item named by the node display name (or its
type tag when the name is empty) joined to the property name by the middle
dot, with metadata recording the property; a binding that is null, whose
id is not a string, or whose id is the empty string is skipped silently. -/
theorem claim_C4 (env : Env) (node : Node) (page : Page)
    (bvs : List (String × Option Binding))
    (hb : node.boundVariables = some bvs) (hnd : (bvs.map Prod.fst).Nodup) :
    (∀ prop b vid, (prop, some b) ∈ bvs → b.id = some vid → vid ≠ "" →
      lookupVariable env vid = false →
      (P2.extractDetachedVariables env node page).filter
        (fun it => it.metadata == some [("property", prop)]) =
        [{ id := node.id
           name := strOr node.name node.type ++ " · " ++ prop
           type := "variable"
           pageId := page.id
           pageName := page.name
           metadata := some [("property", prop)] }]) ∧
    (∀ prop ob, (prop, ob) ∈ bvs →
      (ob = none ∨ ∃ b, ob = some b ∧ (b.id = none ∨ b.id = some "")) →
      (P2.extractDetachedVariables env node page).filter
        (fun it => it.metadata == some [("property", prop)]) = []) := by
  have hex : P2.extractDetachedVariables env node page =
      bvs.filterMap (P2.emitVar env node page) := by
    rw [P2.extractDetachedVariables_eq, hb]
    rfl
  constructor
  · intro prop b vid hm hid hne hlk
    rw [hex]
    simpa [P2.varItemOf] using
      P2.filter_prop_single env node page prop b vid bvs hnd hm hid hne hlk
  · intro prop ob hm hskip
    rw [hex]
    refine P2.filter_prop_nil env node page prop bvs (fun e he hp => ?_)
    have heq : e = (prop, ob) :=
      List.inj_on_of_nodup_map hnd he hm (by simpa using hp)
    rcases hskip with h1 | ⟨b2, h2, h3⟩
    · rw [heq, h1]
      rfl
    · rcases h3 with h4 | h4 <;> simp [heq, h2, P2.emitVar, h4]

/-- C4 counterexample: a binding id that is the empty string is a string
and resolves to no live variable, yet the falsy guard skips it and no
variable item is emitted, so the claim as frozen fails here. -/
theorem claim_C4_counterexample :
    (Node.mk "9:1" "Frame" "FRAME" MainRef.unset
        (some [("fill", some { id := some "" })]) []).boundVariables =
      some [("fill", some { id := some "" })] ∧
    lookupVariable ⟨some []⟩ "" = false ∧
    P2.extractDetachedVariables ⟨some []⟩
      (Node.mk "9:1" "Frame" "FRAME" MainRef.unset
        (some [("fill", some { id := some "" })]) [])
      ⟨"9:0", "P", []⟩ = [] :=
  ⟨rfl, rfl, rfl⟩

/-- C4 witness: the broken-binding example of the specification, and a
silently skipped null binding, on concrete data. -/
theorem claim_C4_witness :
    (P2.extractDetachedVariables exEnv
        (Node.mk "3:2" "Frame" "FRAME" MainRef.unset
          (some [("fill", some ⟨some "v9"⟩), ("stroke", none)]) [])
        exPageGhosts).filter
      (fun it => it.metadata == some [("property", "fill")]) =
      [{ id := "3:2", name := "Frame · fill", type := "variable",
         pageId := "1:4", pageName := "Ghosts",
         metadata := some [("property", "fill")] }] ∧
    (P2.extractDetachedVariables exEnv
        (Node.mk "3:2" "Frame" "FRAME" MainRef.unset
          (some [("fill", some ⟨some "v9"⟩), ("stroke", none)]) [])
        exPageGhosts).filter
      (fun it => it.metadata == some [("property", "stroke")]) = [] := by
  have h := claim_C4 exEnv
    (Node.mk "3:2" "Frame" "FRAME" MainRef.unset
      (some [("fill", some ⟨some "v9"⟩), ("stroke", none)]) [])
    exPageGhosts _ rfl (by decide)
  refine ⟨?_, h.2 "stroke" none (by decide) (Or.inl rfl)⟩
  have h1 := h.1 "fill" ⟨some "v9"⟩ "v9" (by decide) rfl (by decide) (by decide)
  exact h1.trans (by decide)

/-- C5: for any total and transitive locale comparator, every page of the
pipeline 1 summary lists its groups sorted by component name and, inside
each group, its instances sorted by their own name; the output is
identical on repeated runs over an unmodified document. -/
theorem claim_C5 (lc : String → String → Int)
    (htr : ∀ a b c, lc a b ≤ 0 → lc b c ≤ 0 → lc a c ≤ 0)
    (hto : ∀ a b, lc a b ≤ 0 ∨ lc b a ≤ 0) (doc : Doc) :
    P1.scanFile lc doc = P1.scanFile lc doc ∧
    ∀ pd ∈ (P1.scanFile lc doc).pageBreakdown,
      pd.componentGroups.Pairwise
        (fun a b => lc a.componentName b.componentName ≤ 0) ∧
      ∀ g ∈ pd.componentGroups,
        g.instances.Pairwise (fun a b => lc a.name b.name ≤ 0) := by
  refine ⟨rfl, ?_⟩
  intro pd hpd
  rw [P1.scanFile_breakdown] at hpd
  rcases List.mem_filterMap.mp hpd with ⟨p, _, hps⟩
  by_cases h : (P1.getInstancesForPage lc p).isEmpty
  · simp [P1.pageSummary, h] at hps
  · have hfalse : (P1.getInstancesForPage lc p).isEmpty = false := by simpa using h
    simp only [P1.pageSummary, hfalse, Bool.false_eq_true, if_false,
      Option.some.injEq] at hps
    subst hps
    exact ⟨(P1.getInstancesForPage_sorted lc htr hto p).1,
      (P1.getInstancesForPage_sorted lc htr hto p).2⟩

/-- C5 witness: sortedness of the first page of a concrete scan under the
concrete length comparator. -/
theorem claim_C5_witness :
    List.Pairwise (fun a b => exLc a.componentName b.componentName ≤ 0)
      ((P1.scanFile exLc exDoc).pageBreakdown.headD ⟨"", "", 0, []⟩).componentGroups :=
  ((claim_C5 exLc exLc_trans exLc_total exDoc).2 _ (by decide)).1

/-- C6: pipeline 2 applies no re-sort.  A page item list is the
concatenation, over the nodes in traversal order, of each node items,
where a node contributes its component item (when detached) immediately
followed by its variable items; and the variable items follow the
enumeration order of the bound property names. -/
theorem claim_C6 :
    (∀ (env : Env) (page : Page),
      P2.getDetachedItemsForPage env page =
        page.findAll.flatMap (P2.nodeItems env page)) ∧
    (∀ (env : Env) (node : Node) (page : Page),
      P2.extractDetachedVariables env node page =
        (node.boundVariables.getD []).filterMap (P2.emitVar env node page)) :=
  ⟨P2.getDetachedItemsForPage_eq, P2.extractDetachedVariables_eq⟩

/-- C7: a document with zero pages scans to an empty breakdown in both
pipelines, and whenever a scan produces an empty breakdown the handler
sends exactly one results message carrying the explicit zero-valued
summary shape, and no error message. -/
theorem claim_C7 (lc : String → String → Int) (env : Env) (doc : Doc) :
    (doc.pages = [] → (P1.scanFile lc doc).pageBreakdown = [] ∧
      (P2.scanFile env doc).pageBreakdown = []) ∧
    ((P1.scanFile lc doc).pageBreakdown = [] →
      P1.handleScanRequest (Except.ok (P1.scanFile lc doc)) =
        [Effect.postMessage (OutMsg.results1
          { totalInstances := 0, totalUniqueComponents := 0, pageBreakdown := [] })] ∧
      ∀ e ∈ P1.handleScanRequest (Except.ok (P1.scanFile lc doc)),
        e.isError = false) ∧
    ((P2.scanFile env doc).pageBreakdown = [] →
      P2.handleScanRequest (Except.ok (P2.scanFile env doc)) =
        [Effect.postMessage (OutMsg.results2
          { totalDetachedComponents := 0, totalDetachedVariables := 0,
            pageBreakdown := [] })] ∧
      ∀ e ∈ P2.handleScanRequest (Except.ok (P2.scanFile env doc)),
        e.isError = false) := by
  refine ⟨fun h => ?_, fun h => ?_, fun h => ?_⟩
  · obtain ⟨pages⟩ := doc
    simp only [Doc.mk.injEq] at h
    subst h
    exact ⟨rfl, rfl⟩
  · have heq : P1.handleScanRequest (Except.ok (P1.scanFile lc doc)) =
        [Effect.postMessage (OutMsg.results1
          { totalInstances := 0, totalUniqueComponents := 0, pageBreakdown := [] })] := by
      simp [P1.handleScanRequest, h]
    refine ⟨heq, fun e he => ?_⟩
    rw [heq] at he
    simp only [List.mem_singleton] at he
    subst he
    rfl
  · have heq : P2.handleScanRequest (Except.ok (P2.scanFile env doc)) =
        [Effect.postMessage (OutMsg.results2
          { totalDetachedComponents := 0, totalDetachedVariables := 0,
            pageBreakdown := [] })] := by
      simp [P2.handleScanRequest, h]
    refine ⟨heq, fun e he => ?_⟩
    rw [heq] at he
    simp only [List.mem_singleton] at he
    subst he
    rfl

/-- C7 witness: the zero-page document, scanned by both pipelines. -/
theorem claim_C7_witness :
    P1.handleScanRequest (Except.ok (P1.scanFile exLc ⟨[]⟩)) =
      [Effect.postMessage (OutMsg.results1
        { totalInstances := 0, totalUniqueComponents := 0, pageBreakdown := [] })] ∧
    P2.handleScanRequest (Except.ok (P2.scanFile exEnv ⟨[]⟩)) =
      [Effect.postMessage (OutMsg.results2
        { totalDetachedComponents := 0, totalDetachedVariables := 0,
          pageBreakdown := [] })] :=
  ⟨((claim_C7 exLc exEnv ⟨[]⟩).2.1 ((claim_C7 exLc exEnv ⟨[]⟩).1 rfl).1).1,
   ((claim_C7 exLc exEnv ⟨[]⟩).2.2 ((claim_C7 exLc exEnv ⟨[]⟩).1 rfl).2).1⟩

/-- C8: a navigate request whose node id resolves to no live node emits
exactly one error message and one transient notice and performs no page
activation and no viewport change; on a resolved node the viewport call is
always made and a page is activated exactly when the parent chain holds a
PAGE ancestor. -/
theorem claim_C8 (host : List LiveNode) (nodeId : String) :
    (getNodeById host nodeId = none →
      focusNode host nodeId =
        [Effect.notify "Target node not found. It may have been deleted." 2000,
         Effect.postMessage (OutMsg.error "Node not found or removed.")] ∧
      (focusNode host nodeId).countP Effect.isError = 1 ∧
      (focusNode host nodeId).countP Effect.isNotify = 1 ∧
      ∀ e ∈ focusNode host nodeId,
        e.isSetCurrentPage = false ∧ e.isViewportChange = false) ∧
    (∀ n, getNodeById host nodeId = some n →
      Effect.scrollAndZoomIntoView [n.id] ∈ focusNode host nodeId ∧
      ((∃ e ∈ focusNode host nodeId, e.isSetCurrentPage = true) ↔
        ∃ a ∈ n.chain, a.type = "PAGE")) := by
  constructor
  · intro h
    have ht : focusNode host nodeId =
        [Effect.notify "Target node not found. It may have been deleted." 2000,
         Effect.postMessage (OutMsg.error "Node not found or removed.")] := by
      simp [focusNode, h]
    rw [ht]
    refine ⟨rfl, rfl, rfl, fun e he => ?_⟩
    rcases List.mem_cons.mp he with h1 | h1
    · subst h1
      exact ⟨rfl, rfl⟩
    · rcases List.mem_cons.mp h1 with h2 | h2
      · subst h2
        exact ⟨rfl, rfl⟩
      · exact absurd h2 (List.not_mem_nil e)
  · intro n h
    simp only [focusNode, h]
    cases hr : resolvePage n.chain with
    | some pg =>
      refine ⟨by simp, ?_, ?_⟩
      · intro _
        rw [← resolvePage_isSome_iff]
        simp [hr]
      · intro _
        refine ⟨Effect.setCurrentPage pg.id, ?_, rfl⟩
        simp
    | none =>
      refine ⟨by simp, ?_, ?_⟩
      · rintro ⟨e, he, hse⟩
        simp only [List.nil_append, List.mem_singleton] at he
        subst he
        exact Bool.noConfusion hse
      · intro hex
        rw [← resolvePage_isSome_iff, hr] at hex
        simp at hex

/-- C8 witness: a deleted node id yields only the error pair, a live node
is brought into view. -/
theorem claim_C8_witness :
    focusNode exHost "gone" =
      [Effect.notify "Target node not found. It may have been deleted." 2000,
       Effect.postMessage (OutMsg.error "Node not found or removed.")] ∧
    Effect.scrollAndZoomIntoView ["n1"] ∈ focusNode exHost "n1" :=
  ⟨((claim_C8 exHost "gone").1 (by decide)).1,
   ((claim_C8 exHost "n1").2 ⟨"n1", [⟨"4:1", "FRAME"⟩, ⟨"1:2", "PAGE"⟩]⟩
     (by decide)).1⟩

/-- C9: a scan that throws is caught at the dispatcher boundary: the
handler notifies the user with the failure message and posts an error
message with the same text; a thrown non-Error value yields the fixed text
in both places; and the dispatcher keeps processing later requests. -/
theorem claim_C9 :
    (∀ t, P1.handleScanRequest (Except.error t) =
      [Effect.notify (thrownMessage t) 2000,
       Effect.postMessage (OutMsg.error (thrownMessage t))]) ∧
    (∀ t, P2.handleScanRequest (Except.error t) =
      [Effect.notify (thrownMessage t) 2000,
       Effect.postMessage (OutMsg.error (thrownMessage t))]) ∧
    (∀ m, thrownMessage (Thrown.err m) = m) ∧
    thrownMessage Thrown.other = "Unexpected error during scan" ∧
    (∀ sr host rest, processAll sr host (PluginRequest.scan :: rest) =
      P1.handleScanRequest sr ++ processAll sr host rest) :=
  ⟨fun _ => rfl, fun _ => rfl, fun _ => rfl, rfl, fun _ _ _ => rfl⟩

/-- C10: the compiled JavaScript and the TypeScript source of each
pipeline define extensionally equal scan behavior on every document. -/
theorem claim_C10 :
    (∀ (lc : String → String → Int) (doc : Doc),
      P1.scanFile lc doc = P1T.scanFile lc doc) ∧
    (∀ (env : Env) (doc : Doc), P2.scanFile env doc = P2T.scanFile env doc) :=
  ⟨fun lc doc => by simp only [P1.scanFile, P1T.scanFile, P1T.scanPages_agrees],
   fun env doc => by simp only [P2.scanFile, P2T.scanFile, P2T.scanPages_agrees2]⟩

end Tracker
